import Mathlib

/-!
Verification of the Tessera Obsidian plugin (conversation view, plugin
request pipeline, context manager, conversation saving) against its
natural-language specification.

The definitions below are a shallow embedding of the TypeScript source:

* `Vault` models the host application storage abstraction (a flat
  namespace of file and folder entries; `create`/`createFolder` fail on an
  existing path, `modify` overwrites a file in place, `adapter.exists`
  answers for files and folders alike).  Obsidian gives no transactional
  guarantees, so the model is a plain association list in creation order.
* `CMState`, `coreInitialize`, `coreAppendToUserContext`,
  `rootInitialize`, `rootAppendToUserContext`, `getContextContent` embed
  the two `ContextManager` snapshots (`src/core/context-manager.ts` and
  `src/context-manager.ts`).
* `ViewState`, `sendMessageStep`, `sendInitialMessageStep`, `retryStep`,
  `saveConversation` embed `ConversationView`.
* `historyAfterUserStep`, `sendToolResultRequest`, `updateContextBranch`,
  `modelCalls` embed the request pipeline of `TesseraPlugin.sendMessage`
  and `TesseraPlugin.sendToolResult` in `main.ts`.

Timestamps (`Date.now()`, `toLocaleString()`) are environment inputs and
are passed as explicit string/number parameters where the source reads a
clock; debug logging (`logToFile`) only writes outside the vault model and
is omitted.
-/

namespace Tessera

/-- A vault entry: a file with text content, or a folder. -/
inductive Entry
  | file (content : String)
  | folder
deriving DecidableEq, Repr

/-- The Obsidian vault, as seen through `app.vault` / `app.vault.adapter`:
a flat association list from path to entry, in creation order. -/
structure Vault where
  entries : List (String × Entry)
deriving DecidableEq, Repr

namespace Vault

/-- `app.vault.adapter.exists(p)`: true for files and folders alike. -/
def pathExists (v : Vault) (p : String) : Bool :=
  (v.entries.lookup p).isSome

/-- `app.vault.getAbstractFileByPath(p)` followed by reading a `TFile`:
`some content` when `p` is a file, `none` when absent or a folder. -/
def readFile (v : Vault) (p : String) : Option String :=
  match v.entries.lookup p with
  | some (.file c) => some c
  | _ => none

/-- `app.vault.create(p, c)`: creates a new file, throws if the path
already exists. -/
def create (v : Vault) (p c : String) : Except String Vault :=
  if v.pathExists p then .error "File already exists"
  else .ok ⟨v.entries ++ [(p, .file c)]⟩

/-- `app.vault.createFolder(p)`: creates a new folder, throws if the path
already exists. -/
def createFolder (v : Vault) (p : String) : Except String Vault :=
  if v.pathExists p then .error "Folder already exists"
  else .ok ⟨v.entries ++ [(p, .folder)]⟩

/-- `app.vault.modify(file, c)`: overwrites the content of the entry at
the path of the file (the source only calls it holding a `TFile`). -/
def modify (v : Vault) (p c : String) : Vault :=
  ⟨v.entries.map fun e => if e.1 = p then (p, .file c) else e⟩

/-- `app.vault.adapter.remove(p)`: deletes the entry at `p`. -/
def remove (v : Vault) (p : String) : Vault :=
  ⟨v.entries.filter fun e => e.1 ≠ p⟩

/-- The `if (!(await exists(p))) await createFolder(p)` guard pattern. -/
def ensureFolder (v : Vault) (p : String) : Except String Vault :=
  if v.pathExists p then .ok v else v.createFolder p

/-- The `if (!(await exists(p))) await create(p, c)` guard pattern. -/
def ensureFile (v : Vault) (p c : String) : Except String Vault :=
  if v.pathExists p then .ok v else v.create p c

end Vault

/-- `ContextManager` state: the vault plus `activeContextFiles`.  The
source keeps a JS `Set<string>` iterated in insertion order; we model it
as an insertion-ordered duplicate-free list. -/
structure CMState where
  vault : Vault
  ctx : List String
deriving DecidableEq, Repr

/-- `Set.add`: appends iff not already a member (insertion order kept). -/
def addCtx (l : List String) (p : String) : List String :=
  if p ∈ l then l else l ++ [p]

/-- `basePath` of `src/core/context-manager.ts`. -/
def basePath : String := "Context"

/-- The profile path used by the core snapshot: `Context/Profile.md`. -/
def profilePath : String := basePath ++ "/Profile.md"

/-- The profile path used by the root snapshot
(`src/context-manager.ts`): `Profile.md` in the vault root. -/
def rootProfilePath : String := "Profile.md"

/-- `ContextManager.initialize` of `src/core/context-manager.ts`
(lines 10–22): ensure the `Context` folder exists; if
`Context/Profile.md` does not exist, create it empty and add it to
`activeContextFiles` — nothing is added when the file already exists. -/
def coreInitialize (s : CMState) : Except String CMState := do
  let v ← if s.vault.pathExists basePath then pure s.vault
          else s.vault.createFolder basePath
  if v.pathExists profilePath then
    .ok { s with vault := v }
  else do
    let v' ← v.create profilePath ""
    .ok { vault := v', ctx := addCtx s.ctx profilePath }

/-- `ContextManager.initialize` of `src/context-manager.ts`
(lines 11–42): create `Profile.md` if absent; in both branches add it to
`activeContextFiles`. -/
def rootInitialize (s : CMState) : Except String CMState := do
  if ¬ s.vault.pathExists rootProfilePath then do
    let v' ← s.vault.create rootProfilePath ""
    .ok { vault := v', ctx := addCtx s.ctx rootProfilePath }
  else
    .ok { s with ctx := addCtx s.ctx rootProfilePath }

/-- `TFile.basename`: the file name without directories and without the
final extension (`"Context/Profile.md"` ↦ `"Profile"`). -/
def basename (p : String) : String :=
  let name := (p.splitOn "/").getLastD p
  let parts := name.splitOn "."
  if parts.length ≤ 1 then name
  else String.intercalate "." parts.dropLast

/-- One iteration of the `getContextContent` loop: when the path reads as
a file, `"# " + basename + "\n" + content + "\n\n"`; paths that fail to
read contribute nothing. -/
def contextSegment (v : Vault) (p : String) : String :=
  match v.readFile p with
  | some c => "# " ++ basename p ++ "\n" ++ c ++ "\n\n"
  | none => ""

/-- `ContextManager.getContextContent` (identical in both snapshots):
re-reads every member of `activeContextFiles` from the vault at call time
and concatenates the segments in iteration order. -/
def getContextContent (ctx : List String) (v : Vault) : String :=
  ctx.foldl (fun acc p => acc ++ contextSegment v p) ""

/-- `ContextManager.appendToUserContext` of `src/core/context-manager.ts`
(lines 181–227), the append-policy snapshot: ensure folder and file
exist, read the current content, append `"\n\n## Update <ts>\n<content>"`
(no leading separator when the current content is empty), write back with
`vault.modify`, and add the profile path to `activeContextFiles`.  `now`
stands for `new Date().toLocaleString()`.  Errors when the profile path
cannot be accessed as a file. -/
def coreAppendToUserContext (s : CMState) (now content : String) :
    Except String CMState :=
  match s.vault.ensureFolder basePath with
  | .error e => .error e
  | .ok v₁ =>
      match v₁.ensureFile profilePath "" with
      | .error e => .error e
      | .ok v₂ =>
          match v₂.readFile profilePath with
          | some current =>
              .ok { vault := v₂.modify profilePath
                      (if current = ""
                       then "## Update " ++ now ++ "\n" ++ content
                       else current ++ "\n\n## Update " ++ now ++ "\n" ++
                         content),
                    ctx := addCtx s.ctx profilePath }
          | none => .error "Failed to access Profile.md"

/-- `ContextManager.appendToUserContext` of `src/context-manager.ts`
(lines 44–83), the replace-policy snapshot: fetch `Profile.md`; when it
is missing create it (recreating it after a remove when the path exists
but is not a file); then `vault.modify(file, content)` — the new content
replaces the document wholesale. -/
def rootAppendToUserContext (s : CMState) (content : String) :
    Except String CMState := do
  let v ←
    match s.vault.readFile rootProfilePath with
    | some _ => pure s.vault
    | none =>
        if s.vault.pathExists rootProfilePath then
          -- create throws "already exists": remove, then recreate
          (s.vault.remove rootProfilePath).create rootProfilePath ""
        else
          s.vault.create rootProfilePath ""
  .ok { vault := v.modify rootProfilePath content,
        ctx := addCtx s.ctx rootProfilePath }

/-! ### Conversation view (`src/views/ConversationView.ts`) -/

/-- Message roles. -/
inductive Role
  | user
  | assistant
deriving DecidableEq, Repr

/-- `ChatMessage` of `ConversationView` (the `timestamp: number` field is
a clock reading and plays no role in any claim, so it is omitted). -/
structure ChatMessage where
  role : Role
  content : String
deriving DecidableEq, Repr

/-- The view state touched by the send/retry handlers: the `messages`
array and `lastFailedMessage`. -/
structure ViewState where
  messages : List ChatMessage
  lastFailedMessage : Option String
deriving DecidableEq, Repr

/-- The empty conversation session a fresh view starts with. -/
def emptyView : ViewState := ⟨[], none⟩

/-- JavaScript `String.prototype.trim()`: strip leading and trailing
whitespace (modelled structurally so concrete inputs evaluate). -/
def jsTrim (s : String) : String :=
  ⟨(((s.data.dropWhile Char.isWhitespace).reverse.dropWhile
      Char.isWhitespace).reverse)⟩

/-- The literal error text of the catch branch of
`ConversationView.sendMessage`. -/
def errorLiteral : String := "Failed to get response from AI"

/-- Outcome of the awaited `plugin.sendMessage` call, as observed by the
view: a successful completion carrying the rendered text, or a thrown
error. -/
inductive PluginOutcome
  | success (responseText : String)
  | failure
deriving DecidableEq, Repr

/-- `ConversationView.sendMessage` (lines 173–229): blank input returns
immediately; otherwise the trimmed user turn is pushed, and then either
the assistant turn (success) or the error-literal assistant turn is
pushed, the latter also recording `lastFailedMessage = content`. -/
def sendMessageStep (st : ViewState) (content : String)
    (outcome : PluginOutcome) : ViewState :=
  if jsTrim content = "" then st
  else
    let afterUser := st.messages ++ [⟨.user, jsTrim content⟩]
    match outcome with
    | .success t =>
        { st with messages := afterUser ++ [⟨.assistant, t⟩] }
    | .failure =>
        { messages := afterUser ++ [⟨.assistant, errorLiteral⟩],
          lastFailedMessage := some content }

/-- `ConversationView.sendInitialMessage` (lines 139–171): on success the
welcome text is pushed as an assistant turn; on failure only a DOM error
bubble is rendered — `messages` is left untouched. -/
def sendInitialMessageStep (st : ViewState) (outcome : PluginOutcome) :
    ViewState :=
  match outcome with
  | .success t => { st with messages := st.messages ++ [⟨.assistant, t⟩] }
  | .failure => st

/-- The `RetryButton` handler of `ConversationView.createMessageElement`
(part_008 lines 657–667): when a failed message is recorded, re-run
`sendMessage` with it and then clear `lastFailedMessage`.  The error
bubble is removed from the DOM only — not from `messages`. -/
def retryStep (st : ViewState) (outcome : PluginOutcome) : ViewState :=
  match st.lastFailedMessage with
  | none => st
  | some c => { sendMessageStep st c outcome with lastFailedMessage := none }

/-- A sequence of user submissions, each resulting in successful
completion (`(content, responseText)` pairs), applied in order. -/
def sendAllOk (st : ViewState) (pairs : List (String × String)) : ViewState :=
  pairs.foldl (fun s p => sendMessageStep s p.1 (.success p.2)) st

/-- The transcript fragment contributed by a list of successful
submissions: user turn then assistant turn, per pair. -/
def interleaveTurns : List (String × String) → List ChatMessage
  | [] => []
  | p :: ps => ⟨.user, jsTrim p.1⟩ :: ⟨.assistant, p.2⟩ :: interleaveTurns ps

/-! ### Plugin request pipeline (`src/main.ts`, first snapshot) -/

/-- One entry of `conversationHistory`: a plain-text turn. -/
structure HistMsg where
  role : Role
  content : String
deriving DecidableEq, Repr

/-- A `tool_use` content block received from the completion endpoint. -/
structure ToolUseBlock where
  id : String
  name : String
  inputContent : String
  inputFilename : Option String
deriving DecidableEq, Repr

/-- A `tool_result` content block sent back to the endpoint. -/
structure ToolResultBlock where
  tool_use_id : String
  content : String
  is_error : Bool
deriving DecidableEq, Repr

/-- Content of one message parameter of a completion request. -/
inductive MsgParamContent
  | text (s : String)
  | toolUseBlocks (tu : ToolUseBlock)
  | toolResultBlocks (tr : ToolResultBlock)
deriving DecidableEq, Repr

/-- One `{role, content}` message parameter of a completion request. -/
structure MsgParam where
  role : Role
  content : MsgParamContent
deriving DecidableEq, Repr

/-- One tool schema entry (`ContextTool`): name, description and the
required property names of its input schema. -/
structure ToolSchema where
  name : String
  description : String
  required : List String
deriving DecidableEq, Repr

/-- The two-entry tool schema defined identically in
`TesseraPlugin.sendMessage` and `TesseraPlugin.sendToolResult`. -/
def contextTools : List ToolSchema :=
  [⟨"update_context",
    "IMMEDIATELY update user profile when ANY personal information is shared",
    ["content"]⟩,
   ⟨"create_context_file",
    "Create a new context file for organizing specific types of information",
    ["filename", "content"]⟩]

/-- A request to `anthropic.messages.create`, keeping the fields the
claims speak about: whether a system prompt is attached, the message
list, and the attached tool schema. -/
structure ApiRequest where
  hasSystem : Bool
  messages : List MsgParam
  tools : List ToolSchema
deriving DecidableEq, Repr

/-- A content block of a completion response. -/
inductive RespBlock
  | text (t : String)
  | toolUse (tu : ToolUseBlock)
deriving DecidableEq, Repr

/-- A completion response: ordered content blocks. -/
structure ApiResponse where
  content : List RespBlock
deriving DecidableEq, Repr

/-- The fixed user message that replaces the transcript on
`START_CONVERSATION` (main.ts line 363). -/
def startMessage : HistMsg :=
  ⟨.user,
   "Please start the conversation with a succinct: \x27What\x27s on your mind?\x27."⟩

/-- How `TesseraPlugin.sendMessage` (lines 357–371) updates
`conversationHistory` with the incoming user content before calling the
API: the literal `START_CONVERSATION` discards the entire history and
replaces it with the single fixed user message; any other content is
appended as a user turn. -/
def historyAfterUserStep (hist : List HistMsg) (content : String) :
    List HistMsg :=
  if content = "START_CONVERSATION" then [startMessage]
  else hist ++ [⟨.user, content⟩]

/-- `TesseraPlugin.sendToolResult` (lines 484–544): the follow-up request
issued after a tool invocation.  It attaches a system prompt, the full
`contextTools` schema, and the transcript extended with the assistant
`tool_use` block and a user `tool_result` block carrying `result` and
`is_error`. -/
def sendToolResultRequest (hist : List HistMsg) (tu : ToolUseBlock)
    (result : String) (isError : Bool) : ApiRequest :=
  { hasSystem := true,
    tools := contextTools,
    messages :=
      hist.map (fun m => ⟨m.role, .text m.content⟩) ++
      [⟨.assistant, .toolUseBlocks tu⟩,
       ⟨.user, .toolResultBlocks ⟨tu.id, result, isError⟩⟩] }

/-- Number of completion-endpoint calls `TesseraPlugin.sendMessage` makes
for one user-submitted message, as a function of the first response: one
initial call, plus one follow-up via `sendToolResult` when the first
content block is a `tool_use`.  The response of the follow-up is returned to
the caller without inspecting it for further tool use. -/
def modelCalls (r1 : ApiResponse) : Nat :=
  match r1.content with
  | .toolUse _ :: _ => 2
  | _ => 1

/-- The value `TesseraPlugin.sendMessage` returns to the view, given the
first response and (when a follow-up is issued) the follow-up response:
the response of the follow-up is passed straight through. -/
def sendMessageReturn (r1 r2 : ApiResponse) : ApiResponse :=
  match r1.content with
  | .toolUse _ :: _ => r2
  | _ => r1

/-- Trace of the `update_context` branch of `TesseraPlugin.sendMessage`
(lines 394–428) combined with `sendToolResult`: which notices were
emitted, which follow-up request was issued, and which response is
returned.  `storeResult` is the outcome of the awaited
`appendToUserContext` (the store write may throw for environment reasons
— permission errors and the like — so it is a parameter). -/
structure ToolBranchTrace where
  notices : List String
  followupRequest : ApiRequest
  returned : ApiResponse
deriving DecidableEq, Repr

/-- The `update_context` tool branch: on store success the follow-up
carries `"Context updated successfully"`; on store failure the
`appendToUserContext` catch shows the failure notice and rethrows, the
branch catch logs it, and the follow-up is still issued with the error
message and `is_error = true`.  In both cases the response of the follow-up is
returned to the view. -/
def updateContextBranch (hist : List HistMsg) (tu : ToolUseBlock)
    (storeResult : Except String Unit) (followupResponse : ApiResponse) :
    ToolBranchTrace :=
  match storeResult with
  | .ok _ =>
      { notices := ["✅ Profile updated successfully"],
        followupRequest :=
          sendToolResultRequest hist tu "Context updated successfully" false,
        returned := followupResponse }
  | .error e =>
      { notices := ["❌ Failed to update profile: " ++ e],
        followupRequest := sendToolResultRequest hist tu e true,
        returned := followupResponse }

/-! ### Saving a conversation (`ConversationView.saveConversation`,
lines 300–345) -/

/-- The base folder for saved conversations. -/
def savedChatsBase : String := "Saved Chats"

/-- The candidate file names tried by the suffix loop: first
`<datePath>/<name>.md`, then `<datePath>/<name> (1).md`,
`<datePath>/<name> (2).md`, … -/
def candidate (datePath name : String) (i : Nat) : String :=
  if i = 0 then datePath ++ "/" ++ name ++ ".md"
  else datePath ++ "/" ++ name ++ " (" ++ Nat.repr i ++ ").md"

/-- The `while (exists(finalFilename))` loop: try candidates from index
`i` upward until one is unused.  The source loop has no bound; the model
recurses on explicit fuel, and `saveConversation_spec` proves that
`entries.length + 1` fuel never runs out. -/
def findFree (v : Vault) (datePath name : String) :
    Nat → Nat → Option String
  | 0, _ => none
  | fuel + 1, i =>
      if v.pathExists (candidate datePath name i) then
        findFree v datePath name fuel (i + 1)
      else some (candidate datePath name i)

/-- `ConversationView.saveConversation`: with no messages, notify and
return; otherwise ensure `Saved Chats` and `Saved Chats/<today>` exist,
pick the first unused candidate name, and `vault.create` the markdown
there.  `name` is the resolved chat name (or the default Untitled Chat),
`today` the date string, `markdown` the rendered transcript.  Returns the
new vault and the created path; a thrown storage error propagates as in
the awaited calls of the source. -/
def saveConversation (v : Vault) (msgs : List ChatMessage)
    (name today markdown : String) : Except String (Vault × Option String) :=
  if msgs.length = 0 then .ok (v, none)
  else
    match v.ensureFolder savedChatsBase with
    | .error e => .error e
    | .ok v₁ =>
        match v₁.ensureFolder (savedChatsBase ++ "/" ++ today) with
        | .error e => .error e
        | .ok v₂ =>
            match findFree v₂ (savedChatsBase ++ "/" ++ today) name
                (v₂.entries.length + 1) 0 with
            | none => .error "no free filename"
            | some p =>
                match v₂.create p markdown with
                | .error e => .error e
                | .ok v₃ => .ok (v₃, some p)

/-! ### Decoding decimal digit strings (used to show the suffix
candidates are pairwise distinct, hence the suffix loop terminates) -/

/-- Numeric value of a decimal digit character. -/
def digitVal (c : Char) : Nat := c.toNat - 48

/-- Value of a most-significant-first digit string, folded left. -/
def digitsVal (l : List Char) : Nat :=
  l.foldl (fun acc c => acc * 10 + digitVal c) 0

/-! ### Helper lemmas: string cancellation and `Nat.repr` injectivity -/

theorem strAppendLeftCancel {a b c : String} (h : a ++ b = a ++ c) :
    b = c := by
  have hd : a.data ++ b.data = a.data ++ c.data := by
    have := congrArg String.data h
    simpa using this
  have := List.append_cancel_left hd
  cases b; cases c; exact congrArg String.mk this

theorem strAppendRightCancel {a b c : String} (h : a ++ c = b ++ c) :
    a = b := by
  have hd : a.data ++ c.data = b.data ++ c.data := by
    have := congrArg String.data h
    simpa using this
  have := List.append_cancel_right hd
  cases a; cases b; exact congrArg String.mk this

theorem digitVal_digitChar : ∀ d < 10, digitVal (Nat.digitChar d) = d := by
  decide

theorem digitsVal_toDigitsCore :
    ∀ (f n : Nat) (ds : List Char), n < f →
      digitsVal (Nat.toDigitsCore 10 f n ds) =
        ds.foldl (fun acc c => acc * 10 + digitVal c) n := by
  intro f
  induction f with
  | zero => intro n ds h; omega
  | succ f ih =>
      intro n ds h
      unfold Nat.toDigitsCore
      by_cases hz : n / 10 = 0
      · simp only [hz, if_pos rfl]
        have hn : n < 10 := by omega
        have hmod : n % 10 = n := Nat.mod_eq_of_lt hn
        simp [digitsVal, List.foldl, hmod, digitVal_digitChar n hn]
      · simp only [if_neg hz]
        have hlt : n / 10 < f := by
          have h1 : n / 10 < n := Nat.div_lt_self (by omega) (by omega)
          omega
        rw [ih (n / 10) (Nat.digitChar (n % 10) :: ds) hlt]
        have hd : digitVal (Nat.digitChar (n % 10)) = n % 10 :=
          digitVal_digitChar _ (Nat.mod_lt _ (by omega))
        simp only [List.foldl, hd]
        have hnm : n / 10 * 10 + n % 10 = n := by omega
        rw [hnm]

theorem digitsVal_toDigits (n : Nat) :
    digitsVal (Nat.toDigits 10 n) = n := by
  unfold Nat.toDigits
  rw [digitsVal_toDigitsCore (n + 1) n [] (Nat.lt_succ_self n)]
  rfl

theorem natRepr_injective : Function.Injective Nat.repr := by
  intro m n h
  have hdig : Nat.toDigits 10 m = Nat.toDigits 10 n := by
    have : (Nat.toDigits 10 m).asString = (Nat.toDigits 10 n).asString := h
    simpa [List.asString] using congrArg String.data this
  calc m = digitsVal (Nat.toDigits 10 m) := (digitsVal_toDigits m).symm
    _ = digitsVal (Nat.toDigits 10 n) := by rw [hdig]
    _ = n := digitsVal_toDigits n

theorem candidate_injective (dp nm : String) :
    Function.Injective (candidate dp nm) := by
  intro i j h
  unfold candidate at h
  by_cases hi : i = 0 <;> by_cases hj : j = 0
  · omega
  · rw [if_pos hi, if_neg hj] at h
    have := congrArg String.length h
    simp only [String.length_append] at this
    have h3 : (".md" : String).length = 3 := rfl
    have h2 : (" (" : String).length = 2 := rfl
    have h4 : (").md" : String).length = 4 := rfl
    omega
  · rw [if_neg hi, if_pos hj] at h
    have := congrArg String.length h
    simp only [String.length_append] at this
    have h3 : (".md" : String).length = 3 := rfl
    have h2 : (" (" : String).length = 2 := rfl
    have h4 : (").md" : String).length = 4 := rfl
    omega
  · rw [if_neg hi, if_neg hj] at h
    have h1 := strAppendRightCancel h
    have h2 := strAppendLeftCancel h1
    exact natRepr_injective h2

theorem findFree_none (v : Vault) (dp nm : String) :
    ∀ (fuel i : Nat), findFree v dp nm fuel i = none →
      ∀ j < fuel, v.pathExists (candidate dp nm (i + j)) = true := by
  intro fuel
  induction fuel with
  | zero => intro i _ j hj; omega
  | succ fuel ih =>
      intro i h j hj
      unfold findFree at h
      by_cases he : v.pathExists (candidate dp nm i) = true
      · rw [if_pos he] at h
        rcases Nat.eq_zero_or_pos j with hj0 | hjpos
        · subst hj0; simpa using he
        · have := ih (i + 1) h (j - 1) (by omega)
          have harr : i + 1 + (j - 1) = i + j := by omega
          rwa [harr] at this
      · rw [if_neg he] at h
        exact absurd h (by simp)

theorem findFree_some (v : Vault) (dp nm : String) :
    ∀ (fuel i : Nat) (p : String), findFree v dp nm fuel i = some p →
      v.pathExists p = false ∧ ∃ k, p = candidate dp nm k := by
  intro fuel
  induction fuel with
  | zero => intro i p h; exact absurd h (by simp [findFree])
  | succ fuel ih =>
      intro i p h
      unfold findFree at h
      by_cases he : v.pathExists (candidate dp nm i) = true
      · rw [if_pos he] at h
        exact ih (i + 1) p h
      · rw [if_neg he] at h
        have hp : p = candidate dp nm i := by
          have := h; injection this with h'; exact h'.symm
        refine ⟨?_, ⟨i, hp⟩⟩
        rw [hp]
        exact Bool.eq_false_iff.mpr he

theorem lookup_isSome_mem_keys {β : Type} :
    ∀ (l : List (String × β)) (p : String),
      (l.lookup p).isSome = true → p ∈ l.map Prod.fst := by
  intro l
  induction l with
  | nil => intro p h; simp [List.lookup] at h
  | cons e es ih =>
      intro p h
      by_cases hb : p = e.1
      · simp [hb]
      · rw [List.lookup] at h
        simp only [beq_eq_false_iff_ne.mpr hb] at h
        simp only [List.map_cons, List.mem_cons]
        right
        exact ih p h

theorem pathExists_mem_keys (v : Vault) (p : String)
    (h : v.pathExists p = true) : p ∈ v.entries.map Prod.fst :=
  lookup_isSome_mem_keys v.entries p h

theorem findFree_succeeds (v : Vault) (dp nm : String) :
    ∃ p, findFree v dp nm (v.entries.length + 1) 0 = some p := by
  cases hf : findFree v dp nm (v.entries.length + 1) 0 with
  | some p => exact ⟨p, rfl⟩
  | none =>
      exfalso
      have hall := findFree_none v dp nm (v.entries.length + 1) 0 hf
      set keys := v.entries.map Prod.fst with hkeys
      have hsub : (Finset.range (v.entries.length + 1)).image (candidate dp nm)
          ⊆ keys.toFinset := by
        intro x hx
        rcases Finset.mem_image.mp hx with ⟨j, hj, hx⟩
        rw [List.mem_toFinset]
        subst hx
        have := hall j (Finset.mem_range.mp hj)
        have hz : (0 : Nat) + j = j := by omega
        rw [hz] at this
        exact pathExists_mem_keys v _ this
      have hcard :
          ((Finset.range (v.entries.length + 1)).image (candidate dp nm)).card
            = v.entries.length + 1 := by
        rw [Finset.card_image_of_injective _ (candidate_injective dp nm)]
        exact Finset.card_range _
      have hle := Finset.card_le_card hsub
      rw [hcard] at hle
      have hlen : keys.toFinset.card ≤ v.entries.length := by
        calc keys.toFinset.card ≤ keys.length := keys.toFinset_card_le
          _ = v.entries.length := by rw [hkeys, List.length_map]
      omega

theorem lookup_append_some {β : Type} :
    ∀ (l₁ l₂ : List (String × β)) (p : String) (e : β),
      l₁.lookup p = some e → (l₁ ++ l₂).lookup p = some e := by
  intro l₁
  induction l₁ with
  | nil => intro l₂ p e h; simp [List.lookup] at h
  | cons x xs ih =>
      intro l₂ p e h
      rw [List.cons_append, List.lookup]
      rw [List.lookup] at h
      cases hb : p == x.1 with
      | true => simpa [hb] using h
      | false =>
          simp only [hb] at h ⊢
          exact ih l₂ p e h

theorem lookup_append_none {β : Type} :
    ∀ (l₁ l₂ : List (String × β)) (p : String),
      l₁.lookup p = none → (l₁ ++ l₂).lookup p = l₂.lookup p := by
  intro l₁
  induction l₁ with
  | nil => intro l₂ p _; simp
  | cons x xs ih =>
      intro l₂ p h
      rw [List.cons_append, List.lookup]
      rw [List.lookup] at h
      cases hb : p == x.1 with
      | true => simp [hb] at h
      | false =>
          simp only [hb] at h ⊢
          exact ih l₂ p h

theorem lookup_append_eq_none {β : Type} (l₁ l₂ : List (String × β))
    (p : String) (h : (l₁ ++ l₂).lookup p = none) : l₁.lookup p = none := by
  cases hl : l₁.lookup p with
  | none => rfl
  | some e => rw [lookup_append_some l₁ l₂ p e hl] at h; cases h

namespace Vault

theorem pathExists_false_lookup (v : Vault) (p : String)
    (h : v.pathExists p = false) : v.entries.lookup p = none := by
  unfold pathExists at h
  cases hl : v.entries.lookup p with
  | none => rfl
  | some e => rw [hl] at h; cases h

theorem create_ok (v : Vault) (p c : String) (h : v.pathExists p = false) :
    v.create p c = .ok ⟨v.entries ++ [(p, .file c)]⟩ := by
  unfold create
  rw [h]
  rfl

theorem createFolder_ok (v : Vault) (p : String)
    (h : v.pathExists p = false) :
    v.createFolder p = .ok ⟨v.entries ++ [(p, .folder)]⟩ := by
  unfold createFolder
  rw [h]
  rfl

theorem readFile_append (v : Vault) (l : List (String × Entry))
    (q c : String) (h : v.readFile q = some c) :
    Vault.readFile ⟨v.entries ++ l⟩ q = some c := by
  unfold readFile at h ⊢
  cases hl : v.entries.lookup q with
  | none => rw [hl] at h; cases h
  | some e =>
      rw [lookup_append_some v.entries l q e hl]
      rwa [hl] at h

theorem pathExists_append (v : Vault) (l : List (String × Entry))
    (q : String) (h : v.pathExists q = true) :
    Vault.pathExists ⟨v.entries ++ l⟩ q = true := by
  unfold pathExists at h ⊢
  cases hl : v.entries.lookup q with
  | none => rw [hl] at h; cases h
  | some e => rw [lookup_append_some v.entries l q e hl]; rfl

theorem pathExists_append_false (v : Vault) (l : List (String × Entry))
    (q : String) (h : Vault.pathExists ⟨v.entries ++ l⟩ q = false) :
    v.pathExists q = false := by
  unfold pathExists at h ⊢
  rw [lookup_append_eq_none v.entries l q (by
    cases hl : (v.entries ++ l).lookup q with
    | none => rfl
    | some e => rw [hl] at h; cases h)]
  rfl

theorem readFile_create_self (v : Vault) (p c : String)
    (h : v.pathExists p = false) :
    Vault.readFile ⟨v.entries ++ [(p, .file c)]⟩ p = some c := by
  unfold readFile
  rw [lookup_append_none v.entries _ p (v.pathExists_false_lookup p h)]
  simp [List.lookup]

theorem pathExists_create_self (v : Vault) (p : String) (e : Entry)
    (h : v.pathExists p = false) :
    Vault.pathExists ⟨v.entries ++ [(p, e)]⟩ p = true := by
  unfold pathExists
  rw [lookup_append_none v.entries _ p (v.pathExists_false_lookup p h)]
  simp [List.lookup]

end Vault

theorem lookup_modify_list_self (p c : String) :
    ∀ (l : List (String × Entry)), (l.lookup p).isSome = true →
      (l.map fun e => if e.1 = p then (p, Entry.file c) else e).lookup p
        = some (.file c) := by
  intro l
  induction l with
  | nil => intro h; simp [List.lookup] at h
  | cons x xs ih =>
      intro h
      obtain ⟨k, ev⟩ := x
      simp only [List.map_cons]
      by_cases hx : k = p
      · rw [if_pos hx, List.lookup]
        simp
      · rw [if_neg hx, List.lookup]
        have hb : (p == k) = false :=
          beq_eq_false_iff_ne.mpr fun hq => hx hq.symm
        rw [List.lookup] at h
        simp only [hb] at h ⊢
        exact ih h

theorem lookup_modify_list_other (p q c : String) (hq : q ≠ p) :
    ∀ (l : List (String × Entry)),
      (l.map fun e => if e.1 = p then (p, Entry.file c) else e).lookup q
        = l.lookup q := by
  intro l
  induction l with
  | nil => simp
  | cons x xs ih =>
      obtain ⟨k, ev⟩ := x
      simp only [List.map_cons]
      by_cases hx : k = p
      · rw [if_pos hx, List.lookup, List.lookup]
        have hb : (q == p) = false := beq_eq_false_iff_ne.mpr hq
        have hb' : (q == k) = false := beq_eq_false_iff_ne.mpr (hx ▸ hq)
        simp only [hb, hb']
        exact ih
      · rw [if_neg hx, List.lookup, List.lookup]
        cases hb : q == k with
        | true => simp only [hb]
        | false => simp only [hb]; exact ih

namespace Vault

theorem readFile_modify_self (v : Vault) (p c : String)
    (h : v.pathExists p = true) :
    (v.modify p c).readFile p = some c := by
  unfold modify readFile
  rw [lookup_modify_list_self p c v.entries h]

theorem readFile_modify_other (v : Vault) (p q c : String) (hq : q ≠ p) :
    (v.modify p c).readFile q = v.readFile q := by
  unfold modify readFile
  rw [lookup_modify_list_other p q c hq v.entries]

end Vault

theorem lookup_filter_ne_self (p : String) :
    ∀ l : List (String × Entry),
      (l.filter fun e => e.1 ≠ p).lookup p = none := by
  intro l
  induction l with
  | nil => simp
  | cons x xs ih =>
      obtain ⟨k, ev⟩ := x
      by_cases hx : k = p
      · simp only [List.filter, hx]
        simpa using ih
      · simp only [List.filter]
        have : (decide ¬(k = p)) = true := by simp [hx]
        simp only [this]
        rw [List.lookup]
        have hb : (p == k) = false :=
          beq_eq_false_iff_ne.mpr fun hq => hx hq.symm
        simp only [hb]
        exact ih

theorem Vault.pathExists_remove_self (v : Vault) (p : String) :
    (v.remove p).pathExists p = false := by
  unfold Vault.remove Vault.pathExists
  rw [lookup_filter_ne_self p v.entries]
  rfl

theorem mem_addCtx_self (l : List String) (p : String) : p ∈ addCtx l p := by
  unfold addCtx
  by_cases h : p ∈ l
  · rwa [if_pos h]
  · rw [if_neg h]; simp

theorem addCtx_of_mem (l : List String) (p : String) (h : p ∈ l) :
    addCtx l p = l := if_pos h

/-! ### Claim theorems -/

theorem exceptBind_ok {α β : Type} (a : α) (f : α → Except String β) :
    (Except.ok a : Except String α) >>= f = f a := rfl

theorem exceptPure {α : Type} (a : α) :
    (pure a : Except String α) = .ok a := rfl

/-- Claim C9: `TesseraPlugin.sendMessage` treats the literal content
`"START_CONVERSATION"` as the new-conversation trigger without checking
who sent it or whether a conversation is in progress: whatever the
current `conversationHistory`, it is discarded and replaced with the
single fixed user message, so a user who types that literal into the
chat erases the model-visible transcript. -/
theorem C9_start_literal_resets_history (hist : List HistMsg) :
    historyAfterUserStep hist "START_CONVERSATION" = [startMessage] := by
  simp [historyAfterUserStep]

/-- Claim C3: the replace-policy profile update
(`src/context-manager.ts` `appendToUserContext`) stores exactly the
supplied content: for every prior vault state — whatever the profile
document contained before — after `update_profile(content = "Name: Sam")`
the Profile Store reads exactly `"Name: Sam"`. -/
theorem C3_replace_policy_exact (s : CMState) :
    ∃ s', rootAppendToUserContext s "Name: Sam" = .ok s' ∧
      s'.vault.readFile rootProfilePath = some "Name: Sam" := by
  unfold rootAppendToUserContext
  cases hr : s.vault.readFile rootProfilePath with
  | some c =>
      refine ⟨_, rfl, ?_⟩
      apply Vault.readFile_modify_self
      unfold Vault.readFile at hr
      unfold Vault.pathExists
      cases hl : s.vault.entries.lookup rootProfilePath with
      | none => rw [hl] at hr; cases hr
      | some e => rfl
  | none =>
      by_cases he : s.vault.pathExists rootProfilePath = true
      · rw [he]
        simp only [if_pos rfl]
        have hrm := (s.vault.remove rootProfilePath).create_ok rootProfilePath ""
          (s.vault.pathExists_remove_self rootProfilePath)
        rw [hrm]
        refine ⟨_, rfl, ?_⟩
        apply Vault.readFile_modify_self
        exact Vault.pathExists_create_self _ _ _
          (s.vault.pathExists_remove_self rootProfilePath)
      · have he' : s.vault.pathExists rootProfilePath = false :=
          Bool.eq_false_iff.mpr he
        rw [he']
        simp only [if_neg Bool.false_ne_true]
        rw [s.vault.create_ok rootProfilePath "" he']
        refine ⟨_, rfl, ?_⟩
        apply Vault.readFile_modify_self
        exact Vault.pathExists_create_self _ _ _ he'

/-- Claim C4 (code bug evaluation): on a vault where `Context/Profile.md`
already exists, the core snapshot `initialize` returns successfully but
leaves `activeContextFiles` empty — the profile identifier is not a
member — while the root snapshot `initialize` on its corresponding
pre-existing profile adds the identifier, as the specification states. -/
theorem C4_core_init_skips_existing_profile :
    coreInitialize ⟨⟨[(basePath, .folder), (profilePath, .file "Name: Sam")]⟩, []⟩
        = .ok ⟨⟨[(basePath, .folder), (profilePath, .file "Name: Sam")]⟩, []⟩
      ∧ profilePath ∉
          (⟨⟨[(basePath, .folder), (profilePath, .file "Name: Sam")]⟩, []⟩ : CMState).ctx
      ∧ rootInitialize ⟨⟨[(rootProfilePath, .file "Name: Sam")]⟩, []⟩
          = .ok ⟨⟨[(rootProfilePath, .file "Name: Sam")]⟩, [rootProfilePath]⟩
      ∧ rootProfilePath ∈ [rootProfilePath] := by
  refine ⟨?_, ?_, ?_, ?_⟩
  · rfl
  · simp
  · rfl
  · simp

theorem coreInitialize_of_exists (s : CMState)
    (hb : s.vault.pathExists basePath = true)
    (hp : s.vault.pathExists profilePath = true) :
    coreInitialize s = .ok s := by
  simp only [coreInitialize, hb, hp, if_true, exceptPure, exceptBind_ok]

theorem coreInitialize_ok (s : CMState) :
    ∃ s₁, coreInitialize s = .ok s₁ ∧
      s₁.vault.pathExists basePath = true ∧
      s₁.vault.pathExists profilePath = true := by
  by_cases hb : s.vault.pathExists basePath = true
  · by_cases hp : s.vault.pathExists profilePath = true
    · exact ⟨s, coreInitialize_of_exists s hb hp, hb, hp⟩
    · have hp' : s.vault.pathExists profilePath = false :=
        Bool.eq_false_iff.mpr hp
      refine ⟨⟨⟨s.vault.entries ++ [(profilePath, .file "")]⟩,
        addCtx s.ctx profilePath⟩, ?_, ?_, ?_⟩
      · simp only [coreInitialize, hb, hp', if_true, exceptPure, exceptBind_ok,
          if_neg Bool.false_ne_true, s.vault.create_ok profilePath "" hp']
      · exact s.vault.pathExists_append _ basePath hb
      · exact s.vault.pathExists_create_self profilePath _ hp'
  · have hb' : s.vault.pathExists basePath = false := Bool.eq_false_iff.mpr hb
    set v₁ : Vault := ⟨s.vault.entries ++ [(basePath, .folder)]⟩ with hv₁
    by_cases hp : v₁.pathExists profilePath = true
    · refine ⟨⟨v₁, s.ctx⟩, ?_, ?_, hp⟩
      · simp only [coreInitialize, hb', if_neg Bool.false_ne_true,
          s.vault.createFolder_ok basePath hb', exceptPure, exceptBind_ok, hp,
          if_true]
      · exact s.vault.pathExists_create_self basePath _ hb'
    · have hp' : v₁.pathExists profilePath = false := Bool.eq_false_iff.mpr hp
      refine ⟨⟨⟨v₁.entries ++ [(profilePath, .file "")]⟩,
        addCtx s.ctx profilePath⟩, ?_, ?_, ?_⟩
      · simp only [coreInitialize, hb', if_neg Bool.false_ne_true,
          s.vault.createFolder_ok basePath hb', exceptPure, exceptBind_ok, hp',
          v₁.create_ok profilePath "" hp']
      · exact Vault.pathExists_append v₁ _ basePath
          (s.vault.pathExists_create_self basePath _ hb')
      · exact v₁.pathExists_create_self profilePath _ hp'

theorem rootInitialize_ok (s : CMState) :
    ∃ s₁, rootInitialize s = .ok s₁ ∧
      s₁.vault.pathExists rootProfilePath = true ∧
      rootProfilePath ∈ s₁.ctx := by
  by_cases hp : s.vault.pathExists rootProfilePath = true
  · refine ⟨⟨s.vault, addCtx s.ctx rootProfilePath⟩, ?_, hp,
      mem_addCtx_self _ _⟩
    simp only [rootInitialize, hp, not_true, if_neg (not_not_intro rfl),
      if_neg not_false]
  · have hp' : s.vault.pathExists rootProfilePath = false :=
      Bool.eq_false_iff.mpr hp
    refine ⟨⟨⟨s.vault.entries ++ [(rootProfilePath, .file "")]⟩,
      addCtx s.ctx rootProfilePath⟩, ?_, ?_, mem_addCtx_self _ _⟩
    · simp only [rootInitialize, hp', if_pos Bool.false_ne_true,
        s.vault.create_ok rootProfilePath "" hp', exceptPure, exceptBind_ok]
    · exact s.vault.pathExists_create_self rootProfilePath _ hp'

theorem rootInitialize_of_done (s : CMState)
    (hp : s.vault.pathExists rootProfilePath = true)
    (hm : rootProfilePath ∈ s.ctx) :
    rootInitialize s = .ok s := by
  simp only [rootInitialize, hp, not_true, if_neg (not_not_intro rfl),
    if_neg not_false, addCtx_of_mem s.ctx rootProfilePath hm]

/-- Claim C7: Profile Store initialization is idempotent in both
snapshots: a first call always succeeds, and calling it again on the
resulting state succeeds and returns that state entirely unchanged — in
particular the content of the profile document is unchanged from what it was
after the first call. -/
theorem C7_initialize_idempotent (s : CMState) :
    (∃ s₁, coreInitialize s = .ok s₁ ∧ coreInitialize s₁ = .ok s₁) ∧
    (∃ s₁, rootInitialize s = .ok s₁ ∧ rootInitialize s₁ = .ok s₁) := by
  constructor
  · obtain ⟨s₁, h1, hb, hp⟩ := coreInitialize_ok s
    exact ⟨s₁, h1, coreInitialize_of_exists s₁ hb hp⟩
  · obtain ⟨s₁, h1, hp, hm⟩ := rootInitialize_ok s
    exact ⟨s₁, h1, rootInitialize_of_done s₁ hp hm⟩

theorem sendMessageStep_ok (st : ViewState) (c t : String)
    (h : ¬ jsTrim c = "") :
    sendMessageStep st c (.success t) =
      { st with messages :=
          st.messages ++ [⟨.user, jsTrim c⟩, ⟨.assistant, t⟩] } := by
  unfold sendMessageStep
  rw [if_neg h]
  simp

theorem sendMessageStep_fail (st : ViewState) (c : String)
    (h : ¬ jsTrim c = "") :
    sendMessageStep st c .failure =
      { messages :=
          st.messages ++ [⟨.user, jsTrim c⟩, ⟨.assistant, errorLiteral⟩],
        lastFailedMessage := some c } := by
  unfold sendMessageStep
  rw [if_neg h]
  simp

theorem sendAllOk_messages (pairs : List (String × String)) :
    ∀ st : ViewState, (∀ p ∈ pairs, ¬ jsTrim p.1 = "") →
      (sendAllOk st pairs).messages = st.messages ++ interleaveTurns pairs := by
  induction pairs with
  | nil => intro st _; simp [sendAllOk, interleaveTurns]
  | cons p ps ih =>
      intro st h
      have hstep : sendAllOk st (p :: ps) =
          sendAllOk (sendMessageStep st p.1 (.success p.2)) ps := by
        simp [sendAllOk]
      rw [hstep, ih _ fun q hq => h q (List.mem_cons_of_mem p hq)]
      rw [sendMessageStep_ok st p.1 p.2 (h p (List.mem_cons_self p ps))]
      simp [interleaveTurns]

theorem interleaveTurns_roles (pairs : List (String × String)) :
    (interleaveTurns pairs).map ChatMessage.role =
      (List.replicate pairs.length [Role.user, Role.assistant]).flatten := by
  induction pairs with
  | nil => simp [interleaveTurns]
  | cons p ps ih =>
      simp only [interleaveTurns, List.map_cons, List.length_cons,
        List.replicate_succ, List.flatten_cons, ih]
      rfl

theorem interleaveTurns_counts (pairs : List (String × String)) :
    ((interleaveTurns pairs).filter
        fun m => decide (m.role = Role.user)).length = pairs.length ∧
    ((interleaveTurns pairs).filter
        fun m => decide (m.role = Role.assistant)).length = pairs.length := by
  induction pairs with
  | nil => simp [interleaveTurns]
  | cons p ps ih =>
      constructor
      · simp only [interleaveTurns, List.filter_cons, List.length_cons]
        simp [ih.1]
      · simp only [interleaveTurns, List.filter_cons, List.length_cons]
        simp [ih.2]

/-- Claim C1 counterexample: in the code's actual lifecycle the session
does not contain equal user and assistant counts.  `onOpen` runs
`sendInitialMessage`, which seeds one assistant welcome turn; after one
user-submitted message with successful completion (`N = 1`) the session
holds one user turn but two assistant turns, refuting "exactly N user
turns and N assistant turns, strictly alternating starting with user". -/
theorem C1_counterexample :
    ((sendAllOk (sendInitialMessageStep emptyView
        (.success "What\x27s on your mind?")) [("hi", "hello")]).messages.filter
          fun m => decide (m.role = Role.user)).length = 1 ∧
    ¬ ((sendAllOk (sendInitialMessageStep emptyView
        (.success "What\x27s on your mind?")) [("hi", "hello")]).messages.filter
          fun m => decide (m.role = Role.assistant)).length = 1 := by
  decide

/-- Claim C1 (amended): starting from an empty session, any sequence of
`N` non-blank user-submitted messages each resulting in successful
completion yields exactly `N` user turns and `N` assistant turns,
strictly alternating starting with user (role pattern
`[user, assistant]` repeated `N` times), i.e. exactly one assistant turn
per user turn.  The `sendInitialMessage` of the view, however, seeds one
additional assistant welcome turn at the front of a real session, so
after a successful open the session holds `N` user and `N + 1` assistant
turns (see the counterexample). -/
theorem C1_alternation_from_empty (pairs : List (String × String))
    (h : ∀ p ∈ pairs, ¬ jsTrim p.1 = "") :
    (sendAllOk emptyView pairs).messages.map ChatMessage.role =
      (List.replicate pairs.length [Role.user, Role.assistant]).flatten ∧
    ((sendAllOk emptyView pairs).messages.filter
        fun m => decide (m.role = Role.user)).length = pairs.length ∧
    ((sendAllOk emptyView pairs).messages.filter
        fun m => decide (m.role = Role.assistant)).length = pairs.length := by
  have hm := sendAllOk_messages pairs emptyView h
  have hm' : (sendAllOk emptyView pairs).messages = interleaveTurns pairs := by
    rw [hm]; rfl
  rw [hm']
  exact ⟨interleaveTurns_roles pairs, (interleaveTurns_counts pairs).1,
    (interleaveTurns_counts pairs).2⟩

/-- Witness for the amended C1 at a concrete two-message exchange. -/
theorem C1_alternation_witness :
    (sendAllOk emptyView [("hi", "hello"), ("how are you", "fine")]).messages.map
        ChatMessage.role =
      (List.replicate 2 [Role.user, Role.assistant]).flatten ∧
    ((sendAllOk emptyView [("hi", "hello"), ("how are you", "fine")]).messages.filter
        fun m => decide (m.role = Role.user)).length = 2 ∧
    ((sendAllOk emptyView [("hi", "hello"), ("how are you", "fine")]).messages.filter
        fun m => decide (m.role = Role.assistant)).length = 2 :=
  C1_alternation_from_empty [("hi", "hello"), ("how are you", "fine")]
    (by decide)

/-- Claim C5 counterexample: after a failed send of `"hi"` the session
is `[user "hi", assistant errorLiteral]`; invoking retry with a then
successful completion re-runs `sendMessage`, which pushes a second user
turn with the same content — the session ends with two user turns whose
content is `"hi"`, so the original user turn is duplicated (and the
error turn also remains in the session). -/
theorem C5_counterexample :
    ((retryStep (sendMessageStep emptyView "hi" .failure)
        (.success "hello")).messages.filter
          fun m => decide (m.role = Role.user ∧ m.content = "hi")).length
      = 2 := by
  decide

/-- Claim C5 (amended): when the completion call fails, exactly one
error-content assistant turn with the literal text
`"Failed to get response from AI"` is appended after the user turn and
the failed user text is retained in `lastFailedMessage`; invoking the
retry action resubmits that same text through the normal send path,
which appends a second user turn with the same content followed by the
new assistant reply, and clears `lastFailedMessage` — the original user
turn and the error turn remain in the session. -/
theorem C5_failure_retains_and_retry_duplicates :
    (∀ (st : ViewState) (c : String), ¬ jsTrim c = "" →
      sendMessageStep st c .failure =
        { messages :=
            st.messages ++ [⟨.user, jsTrim c⟩, ⟨.assistant, errorLiteral⟩],
          lastFailedMessage := some c }) ∧
    (∀ (st : ViewState) (c t : String), st.lastFailedMessage = some c →
      ¬ jsTrim c = "" →
      retryStep st (.success t) =
        { messages := st.messages ++ [⟨.user, jsTrim c⟩, ⟨.assistant, t⟩],
          lastFailedMessage := none }) := by
  constructor
  · intro st c h
    exact sendMessageStep_fail st c h
  · intro st c t hl h
    unfold retryStep
    rw [hl]
    show ({ sendMessageStep st c (PluginOutcome.success t) with
      lastFailedMessage := none } : ViewState) = _
    rw [sendMessageStep_ok st c t h]

/-- Witness for the amended C5 at the concrete failed-then-retried
exchange of the counterexample. -/
theorem C5_failure_retry_witness :
    sendMessageStep emptyView "hi" .failure =
      { messages := [⟨.user, "hi"⟩, ⟨.assistant, errorLiteral⟩],
        lastFailedMessage := some "hi" } ∧
    retryStep ⟨[⟨.user, "hi"⟩, ⟨.assistant, errorLiteral⟩], some "hi"⟩
        (.success "hello") =
      { messages := [⟨.user, "hi"⟩, ⟨.assistant, errorLiteral⟩,
          ⟨.user, "hi"⟩, ⟨.assistant, "hello"⟩],
        lastFailedMessage := none } := by
  constructor
  · have h := C5_failure_retains_and_retry_duplicates.1 emptyView "hi"
      (by decide)
    simpa [emptyView] using h
  · have h := C5_failure_retains_and_retry_duplicates.2
      ⟨[⟨.user, "hi"⟩, ⟨.assistant, errorLiteral⟩], some "hi"⟩ "hi" "hello"
      rfl (by decide)
    simpa using h

/-- Claim C2 counterexample: the follow-up completion request built by
`TesseraPlugin.sendToolResult` after applying a tool invocation is
issued with the full two-entry tool schema attached — not with no tool
schema. -/
theorem C2_counterexample :
    (sendToolResultRequest [] ⟨"toolu_1", "update_context", "Name: Sam", none⟩
        "Context updated successfully" false).tools = contextTools ∧
    contextTools.length = 2 := ⟨rfl, rfl⟩

/-- Claim C2 (amended): after a tool invocation is applied, the
follow-up completion request of `sendToolResult` is issued with the same
two-tool schema attached (not with none); nevertheless the follow-up
response is returned to the caller without further tool dispatch, so
every user-submitted message terminates in at most two model calls. -/
theorem C2_at_most_two_model_calls (r1 r2 : ApiResponse)
    (hist : List HistMsg) (tu : ToolUseBlock) (result : String)
    (isError : Bool) :
    modelCalls r1 ≤ 2 ∧
    (sendToolResultRequest hist tu result isError).tools = contextTools ∧
    (∀ tu' rest, r1.content = .toolUse tu' :: rest →
      sendMessageReturn r1 r2 = r2) := by
  refine ⟨?_, rfl, ?_⟩
  · unfold modelCalls
    cases r1 with
    | mk content =>
        cases content with
        | nil => simp
        | cons b rest => cases b <;> simp
  · intro tu' rest h
    unfold sendMessageReturn
    rw [h]

/-- Witness for the amended C2 at a concrete tool-use response: two
model calls, a two-tool follow-up schema, and the follow-up response
returned unchanged. -/
theorem C2_two_calls_witness :
    modelCalls ⟨[.toolUse ⟨"toolu_1", "update_context", "Name: Sam", none⟩]⟩
        ≤ 2 ∧
    (sendToolResultRequest [] ⟨"toolu_1", "update_context", "Name: Sam", none⟩
        "ok" false).tools = contextTools ∧
    sendMessageReturn
        ⟨[.toolUse ⟨"toolu_1", "update_context", "Name: Sam", none⟩]⟩
        ⟨[.text "done"]⟩ = ⟨[.text "done"]⟩ := by
  have h := C2_at_most_two_model_calls
    ⟨[.toolUse ⟨"toolu_1", "update_context", "Name: Sam", none⟩]⟩
    ⟨[.text "done"]⟩ [] ⟨"toolu_1", "update_context", "Name: Sam", none⟩
    "ok" false
  exact ⟨h.1, h.2.1,
    h.2.2 ⟨"toolu_1", "update_context", "Name: Sam", none⟩ [] rfl⟩

/-- Claim C6: when the Profile Store write fails while applying an
`update_context` tool invocation, the failure notice is surfaced to the
user, yet the follow-up completion request is still issued (carrying the
error as an `is_error` tool result) and its response is returned to the
view — profile persistence failure never blocks the conversational
reply. -/
theorem C6_store_failure_never_blocks (hist : List HistMsg)
    (tu : ToolUseBlock) (e : String) (fresp : ApiResponse) :
    (updateContextBranch hist tu (.error e) fresp).returned = fresp ∧
    (updateContextBranch hist tu (.error e) fresp).notices =
      ["❌ Failed to update profile: " ++ e] ∧
    (updateContextBranch hist tu (.error e) fresp).followupRequest =
      sendToolResultRequest hist tu e true ∧
    ((updateContextBranch hist tu (.error e) fresp).followupRequest).messages
      = hist.map (fun m => ⟨m.role, .text m.content⟩) ++
        [⟨.assistant, .toolUseBlocks tu⟩,
         ⟨.user, .toolResultBlocks ⟨tu.id, e, true⟩⟩] :=
  ⟨rfl, rfl, rfl, rfl⟩

theorem Vault.readFile_none_of_not_exists (v : Vault) (p : String)
    (h : v.pathExists p = false) : v.readFile p = none := by
  unfold Vault.readFile
  rw [v.pathExists_false_lookup p h]

theorem folderStage (v : Vault) (fp : String) :
    ∃ l, v.ensureFolder fp = .ok ⟨v.entries ++ l⟩ := by
  unfold Vault.ensureFolder
  by_cases h : v.pathExists fp = true
  · refine ⟨[], ?_⟩
    rw [h, if_pos rfl]
    simp
  · have h' : v.pathExists fp = false := Bool.eq_false_iff.mpr h
    refine ⟨[(fp, .folder)], ?_⟩
    rw [h', if_neg Bool.false_ne_true, v.createFolder_ok fp h']

/-- Claim C10: `saveConversation` never overwrites an existing file.
For every invocation with a non-empty session it succeeds, creating a
new file at a path of the `Saved Chats/<date>/<name>` candidate family
(the plain name or a numeric-suffix variant, whichever is first unused):
the chosen path did not exist before the call, afterwards it holds the
rendered markdown, and every previously existing file still reads its
old content. -/
theorem C10_save_never_overwrites (v : Vault) (msgs : List ChatMessage)
    (name today markdown : String) (h : msgs ≠ []) :
    ∃ (v' : Vault) (p : String),
      saveConversation v msgs name today markdown = .ok (v', some p) ∧
      (∃ k, p = candidate (savedChatsBase ++ "/" ++ today) name k) ∧
      v.readFile p = none ∧
      v'.readFile p = some markdown ∧
      (∀ q c, v.readFile q = some c → v'.readFile q = some c) := by
  have hlen : ¬ msgs.length = 0 := by
    intro hc
    exact h (List.length_eq_zero.mp hc)
  obtain ⟨l₁, h₁⟩ := folderStage v savedChatsBase
  obtain ⟨l₂, h₂⟩ :=
    folderStage ⟨v.entries ++ l₁⟩ (savedChatsBase ++ "/" ++ today)
  set v₂ : Vault := ⟨(v.entries ++ l₁) ++ l₂⟩ with hv₂
  obtain ⟨p, hp⟩ :=
    findFree_succeeds v₂ (savedChatsBase ++ "/" ++ today) name
  obtain ⟨hfresh₂, k, hk⟩ :=
    findFree_some v₂ (savedChatsBase ++ "/" ++ today) name
      (v₂.entries.length + 1) 0 p hp
  have hfresh₁ : Vault.pathExists ⟨v.entries ++ l₁⟩ p = false :=
    Vault.pathExists_append_false ⟨v.entries ++ l₁⟩ l₂ p hfresh₂
  have hfresh₀ : v.pathExists p = false :=
    Vault.pathExists_append_false v l₁ p hfresh₁
  have hcreate := v₂.create_ok p markdown hfresh₂
  refine ⟨⟨v₂.entries ++ [(p, .file markdown)]⟩, p, ?_, ⟨k, hk⟩, ?_, ?_, ?_⟩
  · simp only [saveConversation, if_neg hlen, h₁, h₂, hp, hcreate]
  · exact v.readFile_none_of_not_exists p hfresh₀
  · exact v₂.readFile_create_self p markdown hfresh₂
  · intro q c hq
    have hq₁ : Vault.readFile ⟨v.entries ++ l₁⟩ q = some c :=
      v.readFile_append l₁ q c hq
    have hq₂ : v₂.readFile q = some c :=
      Vault.readFile_append ⟨v.entries ++ l₁⟩ l₂ q c hq₁
    exact Vault.readFile_append v₂ [(p, .file markdown)] q c hq₂

/-- Witness for C10 at a concrete vault that already holds a saved
conversation under the same name, so the suffix loop must step past it. -/
theorem C10_save_witness :
    ∃ (v' : Vault) (p : String),
      saveConversation
          ⟨[("Saved Chats", .folder), ("Saved Chats/2025-01-01", .folder),
            ("Saved Chats/2025-01-01/Chat.md", .file "old")]⟩
          [⟨.user, "hi"⟩] "Chat" "2025-01-01" "new markdown"
        = .ok (v', some p) ∧
      (∃ k, p = candidate (savedChatsBase ++ "/" ++ "2025-01-01") "Chat" k) ∧
      Vault.readFile
          ⟨[("Saved Chats", .folder), ("Saved Chats/2025-01-01", .folder),
            ("Saved Chats/2025-01-01/Chat.md", .file "old")]⟩ p = none ∧
      v'.readFile p = some "new markdown" ∧
      (∀ q c,
        Vault.readFile
            ⟨[("Saved Chats", .folder), ("Saved Chats/2025-01-01", .folder),
              ("Saved Chats/2025-01-01/Chat.md", .file "old")]⟩ q = some c →
        v'.readFile q = some c) :=
  C10_save_never_overwrites
    ⟨[("Saved Chats", .folder), ("Saved Chats/2025-01-01", .folder),
      ("Saved Chats/2025-01-01/Chat.md", .file "old")]⟩
    [⟨.user, "hi"⟩] "Chat" "2025-01-01" "new markdown" (by decide)

theorem getContextContent_acc (v : Vault) :
    ∀ (ctx : List String) (a : String),
      ctx.foldl (fun acc p => acc ++ contextSegment v p) a =
        a ++ getContextContent ctx v := by
  intro ctx
  induction ctx with
  | nil => intro a; simp [getContextContent]
  | cons p ps ih =>
      intro a
      rw [List.foldl_cons, ih (a ++ contextSegment v p)]
      unfold getContextContent
      rw [List.foldl_cons, ih ("" ++ contextSegment v p)]
      simp [String.append_assoc]
      rfl

theorem getContextContent_split (v : Vault) (A B : List String) (p : String) :
    getContextContent (A ++ p :: B) v =
      getContextContent A v ++ contextSegment v p ++ getContextContent B v := by
  have h1 : getContextContent (A ++ p :: B) v
      = (A ++ p :: B).foldl (fun acc q => acc ++ contextSegment v q) "" := rfl
  rw [h1, List.foldl_append, List.foldl_cons, getContextContent_acc v B]
  have h2 : A.foldl (fun acc q => acc ++ contextSegment v q) ""
      = getContextContent A v := rfl
  rw [h2]

theorem getContextContent_congr (v v' : Vault) :
    ∀ (l : List String), (∀ q ∈ l, v'.readFile q = v.readFile q) →
      getContextContent l v' = getContextContent l v := by
  intro l
  induction l with
  | nil => intro _; rfl
  | cons p ps ih =>
      intro h
      unfold getContextContent
      rw [List.foldl_cons, List.foldl_cons]
      rw [getContextContent_acc v' ps, getContextContent_acc v ps]
      have hseg : contextSegment v' p = contextSegment v p := by
        unfold contextSegment
        rw [h p (List.mem_cons_self p ps)]
      rw [hseg, ih fun q hq => h q (List.mem_cons_of_mem p hq)]

theorem Vault.readFile_append_folder (v : Vault) (fp q : String) :
    Vault.readFile ⟨v.entries ++ [(fp, .folder)]⟩ q = v.readFile q := by
  unfold Vault.readFile
  cases hl : v.entries.lookup q with
  | some e => rw [lookup_append_some _ _ _ _ hl]
  | none =>
      rw [lookup_append_none _ _ _ hl]
      by_cases hq : q = fp
      · subst hq; simp [List.lookup]
      · simp [List.lookup, beq_eq_false_iff_ne.mpr hq]

theorem Vault.readFile_append_single_other (v : Vault) (p : String)
    (e : Entry) (q : String) (hq : q ≠ p) :
    Vault.readFile ⟨v.entries ++ [(p, e)]⟩ q = v.readFile q := by
  unfold Vault.readFile
  cases hl : v.entries.lookup q with
  | some e' => rw [lookup_append_some _ _ _ _ hl]
  | none =>
      rw [lookup_append_none _ _ _ hl]
      simp [List.lookup, beq_eq_false_iff_ne.mpr hq]

theorem Vault.pathExists_of_readFile (v : Vault) (p c : String)
    (h : v.readFile p = some c) : v.pathExists p = true := by
  unfold Vault.readFile at h
  unfold Vault.pathExists
  cases hl : v.entries.lookup p with
  | none => rw [hl] at h; cases h
  | some e => rfl

theorem ensureFolder_spec (v : Vault) (fp : String) :
    ∃ v', v.ensureFolder fp = .ok v' ∧
      (∀ q, v'.readFile q = v.readFile q) ∧
      (∀ q, v.pathExists q = true → v'.pathExists q = true) := by
  unfold Vault.ensureFolder
  by_cases h : v.pathExists fp = true
  · exact ⟨v, by rw [h, if_pos rfl], fun q => rfl, fun q hq => hq⟩
  · have h' : v.pathExists fp = false := Bool.eq_false_iff.mpr h
    refine ⟨⟨v.entries ++ [(fp, .folder)]⟩, ?_, ?_, ?_⟩
    · rw [h', if_neg Bool.false_ne_true, v.createFolder_ok fp h']
    · intro q; exact v.readFile_append_folder fp q
    · intro q hq; exact v.pathExists_append _ q hq

theorem ensureFile_spec (v : Vault) (p c : String) :
    ∃ v', v.ensureFile p c = .ok v' ∧
      (∀ q, q ≠ p → v'.readFile q = v.readFile q) ∧
      ((v.pathExists p = true ∧ v' = v) ∨
       (v.pathExists p = false ∧ v'.readFile p = some c ∧
        v'.pathExists p = true)) := by
  unfold Vault.ensureFile
  by_cases h : v.pathExists p = true
  · exact ⟨v, by rw [h, if_pos rfl], fun q _ => rfl, .inl ⟨h, rfl⟩⟩
  · have h' : v.pathExists p = false := Bool.eq_false_iff.mpr h
    refine ⟨⟨v.entries ++ [(p, .file c)]⟩, ?_, ?_,
      .inr ⟨h', v.readFile_create_self p c h',
        v.pathExists_create_self p _ h'⟩⟩
    · rw [h', if_neg Bool.false_ne_true, v.create_ok p c h']
    · intro q hq; exact v.readFile_append_single_other p _ q hq

theorem contextSegment_ne_some_some (v v' : Vault) (p c c' : String)
    (h : v.readFile p = some c) (h' : v'.readFile p = some c')
    (hne : c' ≠ c) : contextSegment v' p ≠ contextSegment v p := by
  unfold contextSegment
  rw [h, h']
  intro hEq
  exact hne (strAppendLeftCancel (strAppendRightCancel hEq))

theorem contextSegment_ne_none_some (v v' : Vault) (p c' : String)
    (h : v.readFile p = none) (h' : v'.readFile p = some c') :
    contextSegment v' p ≠ contextSegment v p := by
  unfold contextSegment
  rw [h, h']
  intro hEq
  have hlen := congrArg String.length hEq
  simp only [String.length_append] at hlen
  have h2 : ("# " : String).length = 2 := rfl
  have h0 : ("" : String).length = 0 := rfl
  have h4 : ("\n\n" : String).length = 2 := rfl
  omega

theorem updated_ne_current (cur now content : String) :
    (if cur = "" then "## Update " ++ now ++ "\n" ++ content
     else cur ++ "\n\n## Update " ++ now ++ "\n" ++ content) ≠ cur := by
  by_cases hc : cur = ""
  · rw [if_pos hc]
    intro hEq
    have hlen := congrArg String.length hEq
    simp only [String.length_append] at hlen
    have h10 : ("## Update " : String).length = 10 := rfl
    have h1 : ("\n" : String).length = 1 := rfl
    have h0 : cur.length = 0 := by rw [hc]; rfl
    omega
  · rw [if_neg hc]
    intro hEq
    have hlen := congrArg String.length hEq
    simp only [String.length_append] at hlen
    have h12 : ("\n\n## Update " : String).length = 12 := rfl
    have h1 : ("\n" : String).length = 1 := rfl
    omega

theorem getContextContent_ne_of_segment_ne (ctx : List String) (p : String)
    (v v' : Vault) (hnd : ctx.Nodup) (hmem : p ∈ ctx)
    (hother : ∀ q, q ≠ p → v'.readFile q = v.readFile q)
    (hseg : contextSegment v' p ≠ contextSegment v p) :
    getContextContent ctx v' ≠ getContextContent ctx v := by
  obtain ⟨A, B, hctx⟩ := List.append_of_mem hmem
  subst hctx
  rw [List.nodup_append] at hnd
  obtain ⟨hndA, hndCons, hdisj⟩ := hnd
  have hpB : p ∉ B := (List.nodup_cons.mp hndCons).1
  have hpA : p ∉ A := fun ha => hdisj ha (List.mem_cons_self p B)
  rw [getContextContent_split v' A B p, getContextContent_split v A B p]
  have hA : getContextContent A v' = getContextContent A v :=
    getContextContent_congr v v' A fun q hq =>
      hother q fun he => hpA (he ▸ hq)
  have hB : getContextContent B v' = getContextContent B v :=
    getContextContent_congr v v' B fun q hq =>
      hother q fun he => hpB (he ▸ hq)
  rw [hA, hB]
  intro hEq
  exact hseg (strAppendLeftCancel (strAppendRightCancel hEq))

/-- Claim C8: `getContextContent` performs no caching — it re-reads
every member document from the vault at call time — so when
`appendToUserContext` (the wired `src/core/context-manager.ts`
`applyUpdate`) changes the Profile Store between two calls, the second
returned text of the second call differs.  Hypotheses: `activeContextFiles` is
duplicate-free (it models a JS `Set`) and contains the profile path. -/
theorem C8_context_freshness (s : CMState) (now content : String)
    (s' : CMState) (hnd : s.ctx.Nodup) (hmem : profilePath ∈ s.ctx)
    (hupd : coreAppendToUserContext s now content = .ok s') :
    getContextContent s'.ctx s'.vault ≠ getContextContent s.ctx s.vault := by
  obtain ⟨v₁, h₁, h₁read, h₁ex⟩ := ensureFolder_spec s.vault basePath
  obtain ⟨v₂, h₂, h₂other, h₂cases⟩ := ensureFile_spec v₁ profilePath ""
  simp only [coreAppendToUserContext, h₁, h₂] at hupd
  cases hr : v₂.readFile profilePath with
  | none => rw [hr] at hupd; cases hupd
  | some cur =>
      rw [hr] at hupd
      simp only [Except.ok.injEq] at hupd
      subst hupd
      rw [addCtx_of_mem s.ctx profilePath hmem]
      have hv₂ex : v₂.pathExists profilePath = true :=
        v₂.pathExists_of_readFile profilePath cur hr
      have hnew : (v₂.modify profilePath
          (if cur = "" then "## Update " ++ now ++ "\n" ++ content
           else cur ++ "\n\n## Update " ++ now ++ "\n" ++
             content)).readFile profilePath = some _ :=
        v₂.readFile_modify_self profilePath _ hv₂ex
      have hother : ∀ q, q ≠ profilePath →
          (v₂.modify profilePath
            (if cur = "" then "## Update " ++ now ++ "\n" ++ content
             else cur ++ "\n\n## Update " ++ now ++ "\n" ++
               content)).readFile q = s.vault.readFile q := by
        intro q hq
        rw [Vault.readFile_modify_other v₂ profilePath q _ hq,
          h₂other q hq, h₁read q]
      apply getContextContent_ne_of_segment_ne s.ctx profilePath s.vault _
        hnd hmem hother
      rcases h₂cases with ⟨hpex, hv⟩ | ⟨hpnex, hcreate, _⟩
      · subst hv
        have hold : s.vault.readFile profilePath = some cur := by
          rw [← h₁read profilePath]; exact hr
        exact contextSegment_ne_some_some s.vault _ profilePath cur _ hold
          hnew (updated_ne_current cur now content)
      · have hold : s.vault.readFile profilePath = none := by
          rw [← h₁read profilePath]
          exact v₁.readFile_none_of_not_exists profilePath hpnex
        exact contextSegment_ne_none_some s.vault _ profilePath _ hold hnew

/-- Witness for C8: a concrete profile update (`"Likes: tea"` appended
to a profile reading `"Name: Sam"`) changes the context text returned by
the second call. -/
theorem C8_freshness_witness :
    getContextContent
        (⟨⟨[("Context", .folder),
            ("Context/Profile.md",
             .file "Name: Sam\n\n## Update 1/1/2025\nLikes: tea")]⟩,
          ["Context/Profile.md"]⟩ : CMState).ctx
        (⟨⟨[("Context", .folder),
            ("Context/Profile.md",
             .file "Name: Sam\n\n## Update 1/1/2025\nLikes: tea")]⟩,
          ["Context/Profile.md"]⟩ : CMState).vault ≠
      getContextContent
        (⟨⟨[("Context", .folder),
            ("Context/Profile.md", .file "Name: Sam")]⟩,
          ["Context/Profile.md"]⟩ : CMState).ctx
        (⟨⟨[("Context", .folder),
            ("Context/Profile.md", .file "Name: Sam")]⟩,
          ["Context/Profile.md"]⟩ : CMState).vault :=
  C8_context_freshness
    ⟨⟨[("Context", .folder), ("Context/Profile.md", .file "Name: Sam")]⟩,
      ["Context/Profile.md"]⟩
    "1/1/2025" "Likes: tea"
    ⟨⟨[("Context", .folder),
       ("Context/Profile.md",
        .file "Name: Sam\n\n## Update 1/1/2025\nLikes: tea")]⟩,
      ["Context/Profile.md"]⟩
    (by decide) (by decide) (by rfl)

end Tessera
